import Mathlib

/-!
A verification development for the fjordeco 2D NPZB advection model
(`fjordeco-advection-py.ipynb`). The notebook's `npz` generator advances
four tracer fields N, P, Z, B over a masked `Ny × Nx` grid with three
rotating time slots per field, driven by time-interpolated velocity
forcing. Cell values are embedded as `Option ℚ`: `none` models a numpy
masked entry, `some x` a valid value. `np.exp` is abstracted as the
configuration function `rexp`.
-/

unseal Rat.add Rat.mul Rat.inv Rat.sub Rat.ofScientific

namespace Fjordeco

/-- A single plane of optional cell values (row j, column i); `none` is a
numpy masked entry. -/
abbrev OField : Type := ℕ → ℕ → Option ℚ

/-- A three-slot tracer array `Ny × Nx × 3`: row j, column i, time slot s. -/
abbrev Slotted : Type := ℕ → ℕ → ℕ → Option ℚ

/-- The model configuration: grid shape and mask, inverse grid spacings,
and the `npz` parameters (in the units they are passed in, per day for the
rates), plus the floor minimums and the exponential used by the Ivlev
grazing term. -/
structure Cfg where
  Ny : ℕ
  Nx : ℕ
  mask : ℕ → ℕ → Bool
  idx : ℚ
  idy : ℚ
  Vm : ℚ
  ks : ℚ
  m : ℚ
  alpha : ℚ
  gamma : ℚ
  Rm : ℚ
  ivlev : ℚ
  g : ℚ
  At : ℚ
  dt : ℚ
  min_N : ℚ
  min_P : ℚ
  min_Z : ℚ
  min_B : ℚ
  rexp : ℚ → ℚ

/-- The four tracer fields, three time slots each. -/
@[ext]
structure NPZBState where
  N : Slotted
  P : Slotted
  Z : Slotted
  B : Slotted

/-- One time slot of a slotted field, as a plane. -/
def slot (f : Slotted) (s : ℕ) : OField := fun j i => f j i s

/-- The list of valid (unmasked) values of a plane, in row-major order:
what `numpy.ma.mean` averages over. -/
def validVals (c : Cfg) (f : OField) : List ℚ :=
  (List.range c.Ny).flatMap fun j => (List.range c.Nx).filterMap fun i => f j i

/-- The arithmetic mean over the currently valid cells of a plane
(`field.mean()` on a masked array). -/
def omean (c : Cfg) (f : OField) : ℚ :=
  (validVals c f).sum / ((validVals c f).length : ℚ)

/-- Substitute the fallback for a masked entry (`.filled(fill)`). -/
def filled (a : Option ℚ) (fill : ℚ) : ℚ := a.getD fill

/-- Interior cells: the grid minus its outermost ring (the numpy slice
`[1:-1, 1:-1]`). -/
abbrev interior (c : Cfg) (j i : ℕ) : Prop :=
  1 ≤ j ∧ j + 1 < c.Ny ∧ 1 ≤ i ∧ i + 1 < c.Nx

/-- Vertical velocity at a cell, recomputed each step from the interpolated
velocities with masked entries replaced by the domain means, then damped:
`w[j,i] = idx*(u[j,i].filled - u[j,i-1].filled) + idy*(v[j,i].filled - v[j-1,i].filled)`
followed by `w /= 10`; cells outside the interior stay at their initial 0. -/
def wAt (c : Cfg) (u v : OField) (j i : ℕ) : ℚ :=
  if interior c j i then
    (c.idx * (filled (u j i) (omean c u) - filled (u j (i - 1)) (omean c u)) +
     c.idy * (filled (v j i) (omean c v) - filled (v (j - 1) i) (omean c v))) / 10
  else 0

/-- Michaelis–Menten nutrient uptake at a cell, current slot:
`Vm * P * N / (ks + N)`. -/
def uptakeAt (c : Cfg) (st : NPZBState) (nc j i : ℕ) : Option ℚ := do
  let nC ← st.N j i nc
  let pC ← st.P j i nc
  pure (c.Vm * pC * nC / (c.ks + nC))

/-- Phytoplankton mortality `m * P`, current slot. -/
def pmortAt (c : Cfg) (st : NPZBState) (nc j i : ℕ) : Option ℚ :=
  (st.P j i nc).map fun pC => c.m * pC

/-- Ivlev grazing `ivlev * P * Rm * (1 - exp(-ivlev*P)) * Z`, current slot. -/
def grazeAt (c : Cfg) (st : NPZBState) (nc j i : ℕ) : Option ℚ := do
  let pC ← st.P j i nc
  let zC ← st.Z j i nc
  pure (c.ivlev * pC * c.Rm * (1 - c.rexp (-(c.ivlev * pC))) * zC)

/-- Zooplankton mortality `g * Z`, current slot. -/
def zmortAt (c : Cfg) (st : NPZBState) (nc j i : ℕ) : Option ℚ :=
  (st.Z j i nc).map fun zC => c.g * zC

/-- Benthic input `alpha * P`, current slot. -/
def binputAt (c : Cfg) (st : NPZBState) (nc j i : ℕ) : Option ℚ :=
  (st.P j i nc).map fun pC => c.alpha * pC

/-- Vertical coupling `w * (N - B)`, current slot. -/
def upwellAt (c : Cfg) (u v : OField) (st : NPZBState) (nc j i : ℕ) : Option ℚ := do
  let nC ← st.N j i nc
  let bC ← st.B j i nc
  pure (wAt c u v j i * (nC - bC))

/-- Zonal advection `0.5 * idx * u * (f_east[cur].filled - f_west[cur].filled)`;
masked where the center velocity is masked (the source does not fill `u[j,i]`
here). -/
def zonalAdv (c : Cfg) (u : OField) (f : Slotted) (fl : ℚ) (nc j i : ℕ) : Option ℚ :=
  (u j i).map fun uc =>
    0.5 * c.idx * uc * (filled (f j (i + 1) nc) fl - filled (f j (i - 1) nc) fl)

/-- Meridional advection `0.5 * idy * v * (f_north[cur].filled - f_south[cur].filled)`. -/
def meridAdv (c : Cfg) (v : OField) (f : Slotted) (fl : ℚ) (nc j i : ℕ) : Option ℚ :=
  (v j i).map fun vc =>
    0.5 * c.idy * vc * (filled (f (j + 1) i nc) fl - filled (f (j - 1) i nc) fl)

/-- Zonal diffusion at the previous slot:
`idx² * (f[j,i+1,prev].filled - 2*f[j,i,prev].filled + f[j,i-1,prev].filled)`. -/
def diffX (c : Cfg) (f : Slotted) (fl : ℚ) (np j i : ℕ) : ℚ :=
  c.idx * c.idx *
    (filled (f j (i + 1) np) fl - 2 * filled (f j i np) fl + filled (f j (i - 1) np) fl)

/-- Meridional diffusion at the previous slot as the source writes it for N:
south neighbor at the same zonal index,
`idy² * (f[j+1,i,prev].filled - 2*f[j,i,prev].filled + f[j-1,i,prev].filled)`. -/
def diffYsym (c : Cfg) (f : Slotted) (fl : ℚ) (np j i : ℕ) : ℚ :=
  c.idy * c.idy *
    (filled (f (j + 1) i np) fl - 2 * filled (f j i np) fl + filled (f (j - 1) i np) fl)

/-- Meridional diffusion at the previous slot as the source writes it for P
and Z: the south neighbor is read at zonal index `i-1` (`P[jm, im, nprev]`,
`Z[jm, im, nprev]`), not at the center's index `i`. -/
def diffYsw (c : Cfg) (f : Slotted) (fl : ℚ) (np j i : ℕ) : ℚ :=
  c.idy * c.idy *
    (filled (f (j + 1) i np) fl - 2 * filled (f j i np) fl + filled (f (j - 1) (i - 1) np) fl)

/-- The expression assigned to `N[j, i, nnext]`. -/
def nNext (c : Cfg) (u v : OField) (nfill : ℚ) (np nc : ℕ) (st : NPZBState)
    (j i : ℕ) : Option ℚ := do
  let nP ← st.N j i np
  let za ← zonalAdv c u st.N nfill nc j i
  let ma ← meridAdv c v st.N nfill nc j i
  let uw ← upwellAt c u v st nc j i
  let up ← uptakeAt c st nc j i
  let pm ← pmortAt c st nc j i
  let zm ← zmortAt c st nc j i
  let gr ← grazeAt c st nc j i
  pure (nP + 2 * c.dt *
    (-za - ma - uw + c.At * (diffX c st.N nfill np j i + diffYsym c st.N nfill np j i) -
      up + pm + zm + c.gamma * gr))

/-- The expression assigned to `P[j, i, nnext]`. -/
def pNext (c : Cfg) (u v : OField) (pfill : ℚ) (np nc : ℕ) (st : NPZBState)
    (j i : ℕ) : Option ℚ := do
  let pP ← st.P j i np
  let za ← zonalAdv c u st.P pfill nc j i
  let ma ← meridAdv c v st.P pfill nc j i
  let up ← uptakeAt c st nc j i
  let pm ← pmortAt c st nc j i
  let gr ← grazeAt c st nc j i
  let bi ← binputAt c st nc j i
  pure (pP + 2 * c.dt *
    (-za - ma + c.At * (diffX c st.P pfill np j i + diffYsw c st.P pfill np j i) +
      up - pm - gr - bi))

/-- The expression assigned to `Z[j, i, nnext]`. -/
def zNext (c : Cfg) (u v : OField) (zfill : ℚ) (np nc : ℕ) (st : NPZBState)
    (j i : ℕ) : Option ℚ := do
  let zP ← st.Z j i np
  let za ← zonalAdv c u st.Z zfill nc j i
  let ma ← meridAdv c v st.Z zfill nc j i
  let gr ← grazeAt c st nc j i
  let zm ← zmortAt c st nc j i
  pure (zP + 2 * c.dt *
    (-za - ma + c.At * (diffX c st.Z zfill np j i + diffYsw c st.Z zfill np j i) +
      (1 - c.gamma) * gr - zm))

/-- The expression assigned to `B[j, i, nnext]`: no advection, no diffusion. -/
def bNext (c : Cfg) (u v : OField) (np nc : ℕ) (st : NPZBState) (j i : ℕ) : Option ℚ := do
  let bP ← st.B j i np
  let uw ← upwellAt c u v st nc j i
  let bi ← binputAt c st nc j i
  pure (bP + 2 * c.dt * (uw + bi))

/-- Assign a plane into slot `nn` of a slotted field, over the interior
cells only (the `[j, i, nnext] = ...` slice assignment). -/
def writeInterior (c : Cfg) (f : Slotted) (nn : ℕ) (g : ℕ → ℕ → Option ℚ) : Slotted :=
  fun j i s => if s = nn ∧ interior c j i then g j i else f j i s

/-- One leapfrog update of all four fields: fallback means are taken from
the current slot before any write, and each field's next slot is written
over the interior. -/
def updateFields (c : Cfg) (u v : OField) (np nc nn : ℕ) (st : NPZBState) : NPZBState :=
  { N := writeInterior c st.N nn (nNext c u v (omean c (slot st.N nc)) np nc st)
    P := writeInterior c st.P nn (pNext c u v (omean c (slot st.P nc)) np nc st)
    Z := writeInterior c st.Z nn (zNext c u v (omean c (slot st.Z nc)) np nc st)
    B := writeInterior c st.B nn (bNext c u v np nc st) }

/-- Floor a slotted field at `mn` in every cell and every slot
(`F[:] = np.maximum(F[:], mn)`); masked entries stay masked. -/
def clampSlotted (f : Slotted) (mn : ℚ) : Slotted :=
  fun j i s => (f j i s).map fun x => max x mn

/-- Floor all four fields at their configured minimums. -/
def clampFields (c : Cfg) (st : NPZBState) : NPZBState :=
  { N := clampSlotted st.N c.min_N
    P := clampSlotted st.P c.min_P
    Z := clampSlotted st.Z c.min_Z
    B := clampSlotted st.B c.min_B }

/-- Assign a plane into one slot of a slotted field, over all cells. -/
def assignSlot (f : Slotted) (s0 : ℕ) (g : ℕ → ℕ → Option ℚ) : Slotted :=
  fun j i s => if s = s0 then g j i else f j i s

/-- Average of two optional values, `0.5 * (x + y)`; masked if either is. -/
def avgOpt (a b : Option ℚ) : Option ℚ := do
  let x ← a
  let y ← b
  pure (0.5 * (x + y))

/-- The Robert–Asselin-style averaging on one slotted field, in the
source's order: first `next ← 0.5*(next+cur)` over all cells, then
`cur ← 0.5*(prev+cur)` over all cells (reading the once-updated field). -/
def filterSlotted (np nc nn : ℕ) (f : Slotted) : Slotted :=
  let f1 := assignSlot f nn fun j i => avgOpt (f j i nn) (f j i nc)
  assignSlot f1 nc fun j i => avgOpt (f1 j i np) (f1 j i nc)

/-- The averaging step applied to N, P and Z; B is left untouched. -/
def filterFields (np nc nn : ℕ) (st : NPZBState) : NPZBState :=
  { N := filterSlotted np nc nn st.N
    P := filterSlotted np nc nn st.P
    Z := filterSlotted np nc nn st.Z
    B := st.B }

/-- One full integration step: leapfrog update, floor clamp of every slot,
then—on the averaging cadence—the computational-mode filter. -/
def step (c : Cfg) (u v : OField) (doAvg : Bool) (np nc nn : ℕ) (st : NPZBState) :
    NPZBState :=
  let st1 := clampFields c (updateFields c u v np nc nn st)
  if doAvg then filterFields np nc nn st1 else st1

/-- The forcing dataset: `M` samples of u and v at uniformly spaced
timestamps `t0, t0 + dtf, …, t0 + (M-1)*dtf` (the notebook computes
`frc_dt` as the mean of the timestamp differences; for a uniform series
that is the interval `dtf`). -/
structure Forcing where
  M : ℕ
  t0 : ℚ
  dtf : ℚ
  u : ℕ → OField
  v : ℕ → OField

/-- Python `int()` applied to a rational: truncation toward zero. -/
def pyInt (q : ℚ) : ℤ := if q < 0 then -Int.floor (-q) else Int.floor q

/-- The fractional forcing index the source computes: `fidx = t / frc_dt`.
Note the first forcing timestamp is not subtracted from `t`. -/
def fidxOf (F : Forcing) (t : ℚ) : ℚ := t / F.dtf

/-- The lower bracketing sample index `int(fidx)`. -/
def bracketOf (F : Forcing) (t : ℚ) : ℤ := pyInt (fidxOf F t)

/-- Both bracketing indices `k` and `k+1` are valid positions of the
forcing series. -/
def interpOk (F : Forcing) (t : ℚ) : Prop :=
  0 ≤ bracketOf F t ∧ (bracketOf F t).toNat + 1 < F.M

instance (F : Forcing) (t : ℚ) : Decidable (interpOk F t) :=
  inferInstanceAs (Decidable (_ ∧ _))

/-- Linear time interpolation of a sampled velocity component:
`(1 - frac) * s_k + frac * s_{k+1}` per cell, masked where either sample
is masked; `none` when the bracketing indices run past the series, which
models the fatal IndexError the source would raise there. A negative `k`
(impossible for the nonnegative times the driver produces) is also mapped
to `none`, whereas Python would wrap it around. -/
def interpAt (F : Forcing) (samples : ℕ → OField) (t : ℚ) : Option OField :=
  if interpOk F t then
    let k := (bracketOf F t).toNat
    let frac := fidxOf F t - ((bracketOf F t : ℤ) : ℚ)
    some fun j i => do
      let a ← samples k j i
      let b ← samples (k + 1) j i
      pure ((1 - frac) * a + frac * b)
  else none

/-- The last forcing timestamp, `frc_time[-1] = t0 + (M-1)*dtf`. -/
def lastFrcTime (F : Forcing) : ℚ := F.t0 + ((F.M - 1 : ℕ) : ℚ) * F.dtf

/-- How many step times `np.arange(frc_time[0], frc_time[-1], 600)`
contains: `⌈(frc_time[-1] - frc_time[0]) / 600⌉`. -/
def numSteps (F : Forcing) : ℕ := (Int.ceil ((lastFrcTime F - F.t0) / 600)).toNat

/-- The parameter conversion `npz` performs before stepping: the per-day
rates become per-second, and the step length is fixed at `dt = 600`
seconds. -/
def npzParams (c : Cfg) : Cfg :=
  { c with
    Vm := c.Vm / 86400
    m := c.m / 86400
    alpha := c.alpha / 86400
    Rm := c.Rm / 86400
    g := c.g / 86400
    dt := 600 }

/-- The averaging cadence `Navg = 24`. -/
def navg : ℕ := 24

/-- The cadence test `not np.mod(n, Navg)`: the filter runs exactly when
`n % 24 == 0`. -/
def filterApplied (n : ℕ) : Bool := n % navg == 0

/-- The body of loop iteration `n`: interpolate the forcing at
`t = t0 + n*dt`, then take one step with the slot triple rotated `n`
times from `(0, 1, 2)`. `none` models the fatal forcing-indexing failure. -/
def runStepAt (c : Cfg) (F : Forcing) (n : ℕ) (st : NPZBState) : Option NPZBState :=
  (interpAt F F.u (F.t0 + (n : ℚ) * c.dt)).bind fun u =>
    (interpAt F F.v (F.t0 + (n : ℚ) * c.dt)).bind fun v =>
      some (step c u v (filterApplied n) (n % 3) ((n + 1) % 3) ((n + 2) % 3) st)

/-- The state after `n` loop iterations with the given (already converted)
configuration. -/
def runModel (c : Cfg) (F : Forcing) (st0 : NPZBState) : ℕ → Option NPZBState
  | 0 => some st0
  | n + 1 => (runModel c F st0 n).bind (runStepAt c F n)

/-- The state after `n` iterations of `npz` as called: parameters are
converted to per-second and `dt` is set to 600 first. -/
def npzRun (c : Cfg) (F : Forcing) (st0 : NPZBState) (n : ℕ) : Option NPZBState :=
  runModel (npzParams c) F st0 n

/-- The state `npzRun` reaches, defaulting to the initial state when the
run has failed; used to phrase closed witnesses. -/
def stateAfter (c : Cfg) (F : Forcing) (st0 : NPZBState) (n : ℕ) : NPZBState :=
  (npzRun c F st0 n).getD st0

/-- An initial state whose four fields are spatially uniform over the sea
and masked over land, identical in all three slots (the notebook's
initialization writes all three slots at once). -/
def uniformState (mask : ℕ → ℕ → Bool) (nv pv zv bv : ℚ) : NPZBState :=
  { N := fun j i _ => if mask j i then some nv else none
    P := fun j i _ => if mask j i then some pv else none
    Z := fun j i _ => if mask j i then some zv else none
    B := fun j i _ => if mask j i then some bv else none }

/-- At cell (j,i) every slot of the field holds the same optional value,
and any held value is at or above `mn`. The notebook's initialization
establishes this on the whole grid: it writes all three slots at once and
the floors are below the initial levels. -/
def slotsConstAbove (f : Slotted) (mn : ℚ) (j i : ℕ) : Prop :=
  (∀ s t, f j i s = f j i t) ∧ (∀ s x, f j i s = some x → mn ≤ x)

/-- The outermost ring of the grid: first or last row, or first or last
column. -/
def onRing (c : Cfg) (j i : ℕ) : Prop :=
  j < c.Ny ∧ i < c.Nx ∧ (j = 0 ∨ j = c.Ny - 1 ∨ i = 0 ∨ i = c.Nx - 1)

/-! Concrete configurations, forcings and states used to evaluate the
embedding at specific inputs. -/

/-- A 3×3 all-sea configuration with every parameter equal to 1 and floors
at 0. -/
def cOne : Cfg :=
  { Ny := 3, Nx := 3, mask := fun _ _ => true, idx := 1, idy := 1
    Vm := 1, ks := 1, m := 1, alpha := 1, gamma := 1, Rm := 1, ivlev := 1, g := 1
    At := 1, dt := 1, min_N := 0, min_P := 0, min_Z := 0, min_B := 0
    rexp := fun _ => 1 }

/-- A velocity plane that is 1 everywhere. -/
def uOne : OField := fun _ _ => some 1

/-- A velocity plane that is 0 everywhere. -/
def uZero : OField := fun _ _ => some 0

/-- A state with every field equal to 1 in every cell and slot. -/
def stOne : NPZBState :=
  { N := fun _ _ _ => some 1, P := fun _ _ _ => some 1
    Z := fun _ _ _ => some 1, B := fun _ _ _ => some 1 }

/-- A 3×3 all-sea configuration that isolates the meridional diffusion
term: zero rates, `At = 1`, `idx = 0`, `idy = 1`, `2*dt = 1`. -/
def cDiff : Cfg :=
  { Ny := 3, Nx := 3, mask := fun _ _ => true, idx := 0, idy := 1
    Vm := 0, ks := 1, m := 0, alpha := 0, gamma := 0, Rm := 0, ivlev := 1, g := 0
    At := 1, dt := 1/2, min_N := 0, min_P := 0, min_Z := 0, min_B := 0
    rexp := fun _ => 1 }

/-- A state that distinguishes the south neighbor `(0,1)` (value 7) from
the south-west neighbor `(0,0)` (value 5) of the center `(1,1)`; every
other cell holds 1, all slots alike, all four fields alike. -/
def stDiff : NPZBState :=
  { N := fun j i _ => some (if j = 0 ∧ i = 0 then 5 else if j = 0 ∧ i = 1 then 7 else 1)
    P := fun j i _ => some (if j = 0 ∧ i = 0 then 5 else if j = 0 ∧ i = 1 then 7 else 1)
    Z := fun j i _ => some (if j = 0 ∧ i = 0 then 5 else if j = 0 ∧ i = 1 then 7 else 1)
    B := fun j i _ => some (if j = 0 ∧ i = 0 then 5 else if j = 0 ∧ i = 1 then 7 else 1) }

/-- A forcing series whose first timestamp is 1, not 0: two samples at
times 1 and 2, one second apart. -/
def F1 : Forcing :=
  { M := 2, t0 := 1, dtf := 1
    u := fun k _ _ => some (k : ℚ), v := fun k _ _ => some (k : ℚ) }

/-- A forcing series starting at time 0: two samples one second apart,
u = 3 at the first sample and u = 5 at the second. -/
def Fw : Forcing :=
  { M := 2, t0 := 0, dtf := 1
    u := fun k _ _ => some (if k = 0 then 3 else 5)
    v := fun _ _ _ => some 0 }

/-- A state whose N, P, Z slots hold 1, 2, 3 (previous, current, next for
the triple `(0,1,2)`) and whose B is 7 everywhere. -/
def st123 : NPZBState :=
  { N := fun _ _ s => some (if s = 0 then 1 else if s = 1 then 2 else 3)
    P := fun _ _ s => some (if s = 0 then 1 else if s = 1 then 2 else 3)
    Z := fun _ _ s => some (if s = 0 then 1 else if s = 1 then 2 else 3)
    B := fun _ _ _ => some 7 }

/-- The zero-biology configuration of the claimed steady-state scenario:
`Vm = m = Rm = g = alpha = 0`, with the source's default `At = 20` and the
notebook's floor minimums `1e-5`. -/
def c8 : Cfg :=
  { Ny := 3, Nx := 3, mask := fun _ _ => true, idx := 1, idy := 1
    Vm := 0, ks := 1, m := 0, alpha := 0, gamma := 3/10, Rm := 0, ivlev := 1, g := 0
    At := 20, dt := 600, min_N := 1/100000, min_P := 1/100000, min_Z := 1/100000
    min_B := 1/100000, rexp := fun _ => 1 }

/-- An all-zero velocity forcing: two samples 1200 seconds apart starting
at time 0, so the driver grid holds the two step times 0 and 600. -/
def F8 : Forcing :=
  { M := 2, t0 := 0, dtf := 1200
    u := fun _ _ _ => some 0, v := fun _ _ _ => some 0 }

/-- An initial state with a spatial gradient in N (2 at cell (1,2), 1
elsewhere) and uniform P, Z, B, identical in all three slots. -/
def st8 : NPZBState :=
  { N := fun j i _ => some (if j = 1 ∧ i = 2 then 2 else 1)
    P := fun _ _ _ => some 1
    Z := fun _ _ _ => some 1
    B := fun _ _ _ => some 1 }

/-- The all-sea uniform initial state with value 1 in every field. -/
def stU : NPZBState := uniformState (fun _ _ => true) 1 1 1 1

/-- C10: the computational-mode filter's cadence test is `n % Navg == 0`
with `Navg = 24`, so the filter runs on the very first step (n = 0) and on
every 24th step thereafter (0, 24, 48, …), not only after a full 24 steps
have first elapsed; on such a step the integrator applies the filter after
the clamp. -/
theorem C10_filter_cadence :
    filterApplied 0 = true ∧ filterApplied 24 = true ∧ filterApplied 48 = true ∧
    filterApplied 1 = false ∧ filterApplied 23 = false ∧ filterApplied 25 = false ∧
    (∀ n : ℕ, filterApplied n = true ↔ n % navg = 0) ∧
    (∀ (c : Cfg) (u v : OField) (np nc nn : ℕ) (st : NPZBState),
      step c u v (filterApplied 0) np nc nn st =
        filterFields np nc nn (clampFields c (updateFields c u v np nc nn st))) := by
  refine ⟨rfl, rfl, rfl, rfl, rfl, rfl, fun n => ?_, fun c u v np nc nn st => rfl⟩
  simp [filterApplied]

-- C6
/-- C6: on the filter cadence the integrator applies `next = 0.5*(next+cur)`
then `cur = 0.5*(prev+cur)` to N, P and Z, and leaves B untouched. -/
theorem C6_mode_filter (st : NPZBState) (np nc nn : ℕ)
    (hpn : np ≠ nn) (hcn : nc ≠ nn) (j i : ℕ)
    (aN bN xN aP bP xP aZ bZ xZ : ℚ)
    (hNp : st.N j i np = some aN) (hNc : st.N j i nc = some bN) (hNn : st.N j i nn = some xN)
    (hPp : st.P j i np = some aP) (hPc : st.P j i nc = some bP) (hPn : st.P j i nn = some xP)
    (hZp : st.Z j i np = some aZ) (hZc : st.Z j i nc = some bZ) (hZn : st.Z j i nn = some xZ) :
    (filterFields np nc nn st).N j i nn = some (0.5 * (xN + bN)) ∧
    (filterFields np nc nn st).N j i nc = some (0.5 * (aN + bN)) ∧
    (filterFields np nc nn st).P j i nn = some (0.5 * (xP + bP)) ∧
    (filterFields np nc nn st).P j i nc = some (0.5 * (aP + bP)) ∧
    (filterFields np nc nn st).Z j i nn = some (0.5 * (xZ + bZ)) ∧
    (filterFields np nc nn st).Z j i nc = some (0.5 * (aZ + bZ)) ∧
    (filterFields np nc nn st).B = st.B := by
  have hnc : ¬ (nn = nc) := fun h => hcn h.symm
  have hnp : ¬ (np = nn) := hpn
  simp [filterFields, filterSlotted, assignSlot, avgOpt, hnc, hnp, hcn,
    hNn, hNc, hNp, hPn, hPc, hPp, hZn, hZc, hZp]

/-- C6, witness: with previous = 1, current = 2, next = 3 the filtered
values are next' = 2.5 and current' = 1.5, and B is unchanged. -/
theorem C6_mode_filter_witness :
    (filterFields 0 1 2 st123).N 0 0 2 = some 2.5 ∧
    (filterFields 0 1 2 st123).N 0 0 1 = some 1.5 ∧
    (filterFields 0 1 2 st123).B 0 0 2 = some 7 := by
  have h := C6_mode_filter st123 0 1 2 (by decide) (by decide) 0 0
    1 2 3 1 2 3 1 2 3 rfl rfl rfl rfl rfl rfl rfl rfl rfl
  refine ⟨?_, ?_, ?_⟩
  · rw [h.1]; decide
  · rw [h.2.1]; decide
  · rw [h.2.2.2.2.2.2]; rfl

/-- C2: the claim says P's and Z's meridional diffusion reads the south
neighbor at the same zonal index i, exactly as N's does. The source instead
reads `P[jm, im, nprev]` and `Z[jm, im, nprev]`—the south-west neighbor. At
a field holding 5 at (0,0) and 7 at (0,1), the code's P and Z updates at
center (1,1) use the south-west value 5 (giving next = 5), while the
symmetric stencil the claim and the N update use would give 7; N's update
does use the symmetric value 7. This evaluates the code at that failing
input. -/
theorem C2_pz_diffy_southwest :
    (updateFields cDiff uZero uZero 0 1 2 stDiff).P 1 1 2 = some 5 ∧
    (updateFields cDiff uZero uZero 0 1 2 stDiff).Z 1 1 2 = some 5 ∧
    (updateFields cDiff uZero uZero 0 1 2 stDiff).N 1 1 2 = some 7 ∧
    diffYsw cDiff stDiff.P (omean cDiff (slot stDiff.P 1)) 0 1 1 = 4 ∧
    diffYsym cDiff stDiff.P (omean cDiff (slot stDiff.P 1)) 0 1 1 = 6 ∧
    stDiff.P 0 0 0 = some 5 ∧ stDiff.P 0 1 0 = some 7 ∧
    ((4 : ℚ) ≠ 6) := by decide

/-- C3, counterexample: the source computes `fidx = t / frc_dt` without
subtracting the first forcing timestamp. On a forcing series starting at
t0 = 1 with dt_frc = 1, at query time t = t0 the code's fidx is 1 while the
claimed `(t - t0_frc)/dt_frc` is 0, and the interpolation fails (reads past
the series) instead of returning the first sample. -/
theorem C3_cx :
    fidxOf F1 F1.t0 = 1 ∧ (F1.t0 - F1.t0) / F1.dtf = 0 ∧
    fidxOf F1 F1.t0 ≠ (F1.t0 - F1.t0) / F1.dtf ∧
    (interpAt F1 F1.u F1.t0).isSome = false := by decide

/-- C9, counterexample: on a forcing series starting at t0 = 1 (two
samples, dt_frc = 1), the very first driver step time t = t0 is strictly
inside the forcing range, yet the bracketing index pair computed by the
code is (1, 2) with only 2 samples, so k+1 is not a valid index and the
interpolation fails. -/
theorem C9_cx :
    F1.t0 < lastFrcTime F1 ∧
    (bracketOf F1 F1.t0).toNat + 1 = F1.M ∧
    (interpAt F1 F1.u F1.t0).isSome = false := by decide

/-- C3, amended: when the forcing timeline starts at 0 the code's
`fidx = t/dt_frc` equals the claimed `(t - t0_frc)/dt_frc`; `k = int(fidx)`
is `⌊fidx⌋` for nonnegative fidx, and the interpolated cell value is
`(1-frac)*u_k + frac*u_{k+1}` with `frac = fidx - k`. -/
theorem C3_interp_formula (F : Forcing) (t : ℚ) (h0 : F.t0 = 0)
    (hnn : 0 ≤ fidxOf F t) (hok : interpOk F t) (j i : ℕ) (a b : ℚ)
    (ha : F.u (bracketOf F t).toNat j i = some a)
    (hb : F.u ((bracketOf F t).toNat + 1) j i = some b) :
    fidxOf F t = (t - F.t0) / F.dtf ∧
    bracketOf F t = Int.floor (fidxOf F t) ∧
    (interpAt F F.u t).map (fun uf => uf j i) =
      some (some ((1 - (fidxOf F t - ((bracketOf F t : ℤ) : ℚ))) * a +
                  (fidxOf F t - ((bracketOf F t : ℤ) : ℚ)) * b)) := by
  refine ⟨by rw [h0, sub_zero]; rfl, ?_, ?_⟩
  · rw [bracketOf, pyInt, if_neg (not_lt.mpr hnn)]
  · rw [interpAt, if_pos hok]
    simp [ha, hb]

/-- C3, witness: at t = 1/2 on a series with t0 = 0, dt_frc = 1,
u_0 = 3, u_1 = 5, the interpolated value is 4. -/
theorem C3_interp_formula_witness :
    fidxOf Fw (1/2) = ((1/2 : ℚ) - Fw.t0) / Fw.dtf ∧
    (interpAt Fw Fw.u (1/2)).map (fun uf => uf 0 0) = some (some 4) := by
  have h := C3_interp_formula Fw (1/2) rfl (by decide) (by decide) 0 0 3 5
    (by decide) (by decide)
  refine ⟨h.1, ?_⟩
  rw [h.2.2]; decide

/-- C9, amended: when the forcing timeline starts at 0, every query time
in `[0, last)` yields bracketing indices k and k+1 that are valid positions
of the forcing series and the interpolation succeeds; at or beyond the last
timestamp the interpolation fails (`none`, the fatal IndexError), and the
run cannot continue. -/
theorem C9_bracket_valid (F : Forcing) (h0 : F.t0 = 0) (hdt : 0 < F.dtf)
    (hM : 2 ≤ F.M) (t : ℚ) (ht : 0 ≤ t) :
    (t < lastFrcTime F → interpOk F t ∧ (interpAt F F.u t).isSome = true) ∧
    (lastFrcTime F ≤ t → interpAt F F.u t = none) := by
  have hq : 0 ≤ fidxOf F t := div_nonneg ht hdt.le
  have hbr : bracketOf F t = Int.floor (fidxOf F t) := by
    rw [bracketOf, pyInt, if_neg (not_lt.mpr hq)]
  have hlast : lastFrcTime F = ((F.M - 1 : ℕ) : ℚ) * F.dtf := by
    rw [lastFrcTime, h0, zero_add]
  constructor
  · intro hlt
    have h1 : fidxOf F t < ((F.M - 1 : ℕ) : ℚ) := by
      rw [fidxOf]
      rw [hlast] at hlt
      exact (div_lt_iff₀ hdt).mpr hlt
    have h2 : bracketOf F t < ((F.M - 1 : ℕ) : ℤ) := by
      rw [hbr]
      exact Int.floor_lt.mpr (by exact_mod_cast h1)
    have h3 : 0 ≤ bracketOf F t := by
      rw [hbr]
      exact Int.floor_nonneg.mpr hq
    have hok : interpOk F t := ⟨h3, by omega⟩
    exact ⟨hok, by rw [interpAt, if_pos hok]; rfl⟩
  · intro hge
    have h1 : ((F.M - 1 : ℕ) : ℚ) ≤ fidxOf F t := by
      rw [fidxOf]
      rw [hlast] at hge
      exact (le_div_iff₀ hdt).mpr hge
    have h2 : ((F.M - 1 : ℕ) : ℤ) ≤ bracketOf F t := by
      rw [hbr]
      exact Int.le_floor.mpr (by exact_mod_cast h1)
    have h3 : ¬ interpOk F t := by
      rintro ⟨hpos, hlt⟩
      omega
    rw [interpAt, if_neg h3]

/-- C9, witness: with t0 = 0, dt_frc = 1 and two samples, interpolation
succeeds at t = 1/2 and fails at t = 5. -/
theorem C9_bracket_valid_witness :
    (interpAt Fw Fw.u (1/2)).isSome = true ∧ interpAt Fw Fw.u 5 = none := by
  refine ⟨((C9_bracket_valid Fw rfl (by decide) (by decide) (1/2) (by decide)).1
    (by decide)).2, (C9_bracket_valid Fw rfl (by decide) (by decide) 5
    (by decide)).2 (by decide)⟩

/-- C1: at every step and interior sea cell whose operands are unmasked,
the next slot of N is written as
`prev + 2*dt*(-0.5*idx*u*(N_e - N_w) - 0.5*idy*v*(N_n - N_s) - w*(N - B)
+ At*(diffx + diffy) - uptake + p_mortality + z_mortality + gamma*grazing)`,
with the advective differences at the current slot, the diffusion at the
previous slot, the biological terms at the current slot, and masked
neighbors replaced by the per-step domain mean of the current slot. -/
theorem C1_N_leapfrog_update (c : Cfg) (u v : OField) (np nc nn : ℕ)
    (st : NPZBState) (j i : ℕ) (hint : interior c j i)
    (uc vc nP nC bC pC zC : ℚ)
    (hu : u j i = some uc) (hv : v j i = some vc)
    (hNp : st.N j i np = some nP) (hNc : st.N j i nc = some nC)
    (hBc : st.B j i nc = some bC) (hPc : st.P j i nc = some pC)
    (hZc : st.Z j i nc = some zC) :
    (updateFields c u v np nc nn st).N j i nn =
      some (nP + 2 * c.dt *
        (-(0.5 * c.idx * uc *
            (filled (st.N j (i + 1) nc) (omean c (slot st.N nc)) -
             filled (st.N j (i - 1) nc) (omean c (slot st.N nc)))) -
         0.5 * c.idy * vc *
            (filled (st.N (j + 1) i nc) (omean c (slot st.N nc)) -
             filled (st.N (j - 1) i nc) (omean c (slot st.N nc))) -
         wAt c u v j i * (nC - bC) +
         c.At * (diffX c st.N (omean c (slot st.N nc)) np j i +
                 diffYsym c st.N (omean c (slot st.N nc)) np j i) -
         c.Vm * pC * nC / (c.ks + nC) + c.m * pC + c.g * zC +
         c.gamma * (c.ivlev * pC * c.Rm * (1 - c.rexp (-(c.ivlev * pC))) * zC))) := by
  simp [updateFields, writeInterior, hint, nNext, zonalAdv, meridAdv, upwellAt,
    uptakeAt, pmortAt, zmortAt, grazeAt, hu, hv, hNp, hNc, hBc, hPc, hZc]

/-- C1, witness: on the all-ones 3×3 configuration the updated center
value of N is 1 + 2*(−1/2 + 1 + 1) = 4. -/
theorem C1_N_leapfrog_update_witness :
    (updateFields cOne uOne uOne 0 1 2 stOne).N 1 1 2 = some 4 := by
  have h := C1_N_leapfrog_update cOne uOne uOne 0 1 2 stOne 1 1 (by decide)
    1 1 1 1 1 1 1 rfl rfl rfl rfl rfl rfl rfl
  rw [h]; decide

/-- C4: at every step and interior sea cell the benthos update is
`next[B] = prev[B] + 2*dt*(w*(N - B) + alpha*P)` with no advection and no
diffusion term, and the same `alpha*P` flux added to B is subtracted in
P's update of the same step. -/
theorem C4_B_leapfrog_update (c : Cfg) (u v : OField) (np nc nn : ℕ)
    (st : NPZBState) (j i : ℕ) (hint : interior c j i)
    (uc vc bP nC bC pC pP zC : ℚ)
    (hu : u j i = some uc) (hv : v j i = some vc)
    (hBp : st.B j i np = some bP) (hNc : st.N j i nc = some nC)
    (hBc : st.B j i nc = some bC) (hPc : st.P j i nc = some pC)
    (hPp : st.P j i np = some pP) (hZc : st.Z j i nc = some zC) :
    (updateFields c u v np nc nn st).B j i nn =
      some (bP + 2 * c.dt * (wAt c u v j i * (nC - bC) + c.alpha * pC)) ∧
    (updateFields c u v np nc nn st).P j i nn =
      some (pP + 2 * c.dt *
        (-(0.5 * c.idx * uc *
            (filled (st.P j (i + 1) nc) (omean c (slot st.P nc)) -
             filled (st.P j (i - 1) nc) (omean c (slot st.P nc)))) -
         0.5 * c.idy * vc *
            (filled (st.P (j + 1) i nc) (omean c (slot st.P nc)) -
             filled (st.P (j - 1) i nc) (omean c (slot st.P nc))) +
         c.At * (diffX c st.P (omean c (slot st.P nc)) np j i +
                 diffYsw c st.P (omean c (slot st.P nc)) np j i) +
         c.Vm * pC * nC / (c.ks + nC) - c.m * pC -
         c.ivlev * pC * c.Rm * (1 - c.rexp (-(c.ivlev * pC))) * zC -
         c.alpha * pC)) := by
  constructor
  · simp [updateFields, writeInterior, hint, bNext, upwellAt, binputAt,
      hBp, hNc, hBc, hPc]
  · simp [updateFields, writeInterior, hint, pNext, zonalAdv, meridAdv,
      uptakeAt, pmortAt, grazeAt, binputAt, hu, hv, hPp, hNc, hPc, hZc]

/-- C4, witness: on the all-ones 3×3 configuration B's center value
becomes 1 + 2*(0 + 1) = 3 and P's becomes 1 + 2*(1/2 − 1 − 0 − 1) = −2. -/
theorem C4_B_leapfrog_update_witness :
    (updateFields cOne uOne uOne 0 1 2 stOne).B 1 1 2 = some 3 ∧
    (updateFields cOne uOne uOne 0 1 2 stOne).P 1 1 2 = some (-2) := by
  have h := C4_B_leapfrog_update cOne uOne uOne 0 1 2 stOne 1 1 (by decide)
    1 1 1 1 1 1 1 1 rfl rfl rfl rfl rfl rfl rfl rfl
  exact ⟨by rw [h.1]; decide, by rw [h.2]; decide⟩

/-- Helper: every value held after the clamp is at or above the
floor. -/
theorem clampSlotted_ge (f : Slotted) (mn : ℚ) :
    ∀ j i s x, clampSlotted f mn j i s = some x → mn ≤ x := by
  intro j i s x hx
  rcases hf : f j i s with _ | y <;> simp [clampSlotted, hf] at hx
  rw [← hx]
  exact le_max_right y mn

/-- Helper: the average of two optional values at or above a bound stays
at or above it. -/
theorem avgOpt_ge (mn : ℚ) (a b : Option ℚ) (ha : ∀ x, a = some x → mn ≤ x)
    (hb : ∀ x, b = some x → mn ≤ x) :
    ∀ x, avgOpt a b = some x → mn ≤ x := by
  intro x hx
  rcases haa : a with _ | y <;> rcases hbb : b with _ | z <;>
    simp [avgOpt, haa, hbb] at hx
  have h1 := ha y haa
  have h2 := hb z hbb
  rw [← hx]
  linarith

/-- Helper: a slot assignment preserves a lower bound that both the field
and the assigned plane satisfy. -/
theorem assignSlot_ge (mn : ℚ) (f : Slotted) (s0 : ℕ) (g : ℕ → ℕ → Option ℚ)
    (hf : ∀ j i s x, f j i s = some x → mn ≤ x)
    (hg : ∀ j i x, g j i = some x → mn ≤ x) :
    ∀ j i s x, assignSlot f s0 g j i s = some x → mn ≤ x := by
  intro j i s x hx
  unfold assignSlot at hx
  split at hx
  · exact hg j i x hx
  · exact hf j i s x hx

/-- Helper: the averaging filter preserves a pointwise lower bound. -/
theorem filterSlotted_ge (mn : ℚ) (np nc nn : ℕ) (f : Slotted)
    (hf : ∀ j i s x, f j i s = some x → mn ≤ x) :
    ∀ j i s x, filterSlotted np nc nn f j i s = some x → mn ≤ x := by
  have h1 := assignSlot_ge mn f nn (fun j i => avgOpt (f j i nn) (f j i nc)) hf
    (fun j i => avgOpt_ge mn _ _ (hf j i nn) (hf j i nc))
  intro j i s x hx
  rw [filterSlotted] at hx
  exact assignSlot_ge mn _ nc _ h1
    (fun j i => avgOpt_ge mn _ _ (h1 j i np) (h1 j i nc)) j i s x hx

/-- C5: after a completed integration step (update, clamp, and filter when
scheduled), every value any field holds, in any cell and any slot, is at or
above that field's configured minimum; the clamp is a total pointwise
maximum that signals no error. -/
theorem C5_floor_invariant (c : Cfg) (u v : OField) (doAvg : Bool)
    (np nc nn : ℕ) (st : NPZBState) (j i s : ℕ) :
    (∀ x, (step c u v doAvg np nc nn st).N j i s = some x → c.min_N ≤ x) ∧
    (∀ x, (step c u v doAvg np nc nn st).P j i s = some x → c.min_P ≤ x) ∧
    (∀ x, (step c u v doAvg np nc nn st).Z j i s = some x → c.min_Z ≤ x) ∧
    (∀ x, (step c u v doAvg np nc nn st).B j i s = some x → c.min_B ≤ x) := by
  have hN := clampSlotted_ge (updateFields c u v np nc nn st).N c.min_N
  have hP := clampSlotted_ge (updateFields c u v np nc nn st).P c.min_P
  have hZ := clampSlotted_ge (updateFields c u v np nc nn st).Z c.min_Z
  have hB := clampSlotted_ge (updateFields c u v np nc nn st).B c.min_B
  cases doAvg with
  | false =>
    exact ⟨fun x hx => hN j i s x hx, fun x hx => hP j i s x hx,
      fun x hx => hZ j i s x hx, fun x hx => hB j i s x hx⟩
  | true =>
    refine ⟨fun x hx => ?_, fun x hx => ?_, fun x hx => ?_, fun x hx => ?_⟩
    · exact filterSlotted_ge c.min_N np nc nn _ hN j i s x hx
    · exact filterSlotted_ge c.min_P np nc nn _ hP j i s x hx
    · exact filterSlotted_ge c.min_Z np nc nn _ hZ j i s x hx
    · exact hB j i s x hx

/-- Helper: ring cells are outside the interior stencil. -/
theorem onRing_not_interior (c : Cfg) (j i : ℕ) (h : onRing c j i) :
    ¬ interior c j i := by
  obtain ⟨hj, hi, h⟩ := h
  rintro ⟨h1, h2, h3, h4⟩
  omega

/-- Helper: averaging a value with itself returns it. -/
theorem avgOpt_self (a : Option ℚ) : avgOpt a a = a := by
  rcases a with _ | y
  · rfl
  · show some (0.5 * (y + y)) = some y
    congr 1
    ring

/-- Helper: pointwise evaluation of the averaging filter. -/
theorem filterSlotted_eval (np nc nn : ℕ) (f : Slotted) (j i s : ℕ) :
    filterSlotted np nc nn f j i s =
      if s = nc then
        avgOpt (if np = nn then avgOpt (f j i nn) (f j i nc) else f j i np)
               (if nc = nn then avgOpt (f j i nn) (f j i nc) else f j i nc)
      else if s = nn then avgOpt (f j i nn) (f j i nc)
      else f j i s := by
  simp only [filterSlotted, assignSlot]

/-- Helper: the averaging filter fixes a cell whose slots are all
equal. -/
theorem filterSlotted_const (np nc nn : ℕ) (f : Slotted) (j i : ℕ)
    (hconst : ∀ s t, f j i s = f j i t) :
    ∀ s, filterSlotted np nc nn f j i s = f j i s := by
  intro s
  rw [filterSlotted_eval, hconst nn 0, hconst nc 0, hconst np 0, hconst s 0]
  simp [avgOpt_self]

/-- Helper: the clamp fixes a cell value already at or above the
floor. -/
theorem clampSlotted_fixed (f : Slotted) (mn : ℚ) (j i s : ℕ)
    (h : ∀ x, f j i s = some x → mn ≤ x) :
    clampSlotted f mn j i s = f j i s := by
  rcases hf : f j i s with _ | y
  · simp [clampSlotted, hf]
  · simp [clampSlotted, hf]
    exact h y hf

/-- Helper: the interior slice assignment leaves non-interior cells
untouched. -/
theorem writeInterior_not_interior (c : Cfg) (f : Slotted) (nn : ℕ)
    (g : ℕ → ℕ → Option ℚ) (j i : ℕ) (hni : ¬ interior c j i) (s : ℕ) :
    writeInterior c f nn g j i s = f j i s := by
  simp [writeInterior, hni]

/-- Helper: one full step leaves a non-interior cell unchanged in every
slot of every field, provided the cell's slots are equal and at or above
the floors. -/
theorem step_ring_fixed (c : Cfg) (u v : OField) (doAvg : Bool) (np nc nn : ℕ)
    (st : NPZBState) (j i : ℕ) (hni : ¬ interior c j i)
    (hN : slotsConstAbove st.N c.min_N j i) (hP : slotsConstAbove st.P c.min_P j i)
    (hZ : slotsConstAbove st.Z c.min_Z j i) (hB : slotsConstAbove st.B c.min_B j i) :
    (∀ s, (step c u v doAvg np nc nn st).N j i s = st.N j i s) ∧
    (∀ s, (step c u v doAvg np nc nn st).P j i s = st.P j i s) ∧
    (∀ s, (step c u v doAvg np nc nn st).Z j i s = st.Z j i s) ∧
    (∀ s, (step c u v doAvg np nc nn st).B j i s = st.B j i s) := by
  have hclN : ∀ s, (clampFields c (updateFields c u v np nc nn st)).N j i s
      = st.N j i s := by
    intro s
    show clampSlotted (writeInterior c st.N nn _) c.min_N j i s = st.N j i s
    rw [clampSlotted_fixed _ _ _ _ _
      (fun x hx => hN.2 s x ((writeInterior_not_interior c st.N nn _ j i hni s) ▸ hx))]
    exact writeInterior_not_interior c st.N nn _ j i hni s
  have hclP : ∀ s, (clampFields c (updateFields c u v np nc nn st)).P j i s
      = st.P j i s := by
    intro s
    show clampSlotted (writeInterior c st.P nn _) c.min_P j i s = st.P j i s
    rw [clampSlotted_fixed _ _ _ _ _
      (fun x hx => hP.2 s x ((writeInterior_not_interior c st.P nn _ j i hni s) ▸ hx))]
    exact writeInterior_not_interior c st.P nn _ j i hni s
  have hclZ : ∀ s, (clampFields c (updateFields c u v np nc nn st)).Z j i s
      = st.Z j i s := by
    intro s
    show clampSlotted (writeInterior c st.Z nn _) c.min_Z j i s = st.Z j i s
    rw [clampSlotted_fixed _ _ _ _ _
      (fun x hx => hZ.2 s x ((writeInterior_not_interior c st.Z nn _ j i hni s) ▸ hx))]
    exact writeInterior_not_interior c st.Z nn _ j i hni s
  have hclB : ∀ s, (clampFields c (updateFields c u v np nc nn st)).B j i s
      = st.B j i s := by
    intro s
    show clampSlotted (writeInterior c st.B nn _) c.min_B j i s = st.B j i s
    rw [clampSlotted_fixed _ _ _ _ _
      (fun x hx => hB.2 s x ((writeInterior_not_interior c st.B nn _ j i hni s) ▸ hx))]
    exact writeInterior_not_interior c st.B nn _ j i hni s
  cases doAvg with
  | false => exact ⟨hclN, hclP, hclZ, hclB⟩
  | true =>
    refine ⟨fun s => ?_, fun s => ?_, fun s => ?_, fun s => ?_⟩
    · show filterSlotted np nc nn (clampFields c (updateFields c u v np nc nn st)).N j i s
        = st.N j i s
      rw [filterSlotted_const np nc nn _ j i
        (fun a b => by rw [hclN a, hclN b]; exact hN.1 a b)]
      exact hclN s
    · show filterSlotted np nc nn (clampFields c (updateFields c u v np nc nn st)).P j i s
        = st.P j i s
      rw [filterSlotted_const np nc nn _ j i
        (fun a b => by rw [hclP a, hclP b]; exact hP.1 a b)]
      exact hclP s
    · show filterSlotted np nc nn (clampFields c (updateFields c u v np nc nn st)).Z j i s
        = st.Z j i s
      rw [filterSlotted_const np nc nn _ j i
        (fun a b => by rw [hclZ a, hclZ b]; exact hZ.1 a b)]
      exact hclZ s
    · exact hclB s

/-- C7: a cell on the outermost ring of the grid whose three slots start
equal and at or above the floors (as the notebook's initialization leaves
them) retains its value in every slot of every field for the entire run:
the interior stencil never writes the ring, the clamp fixes values above
the floor, and the filter fixes slot-constant cells. -/
theorem C7_ring_preserved (c : Cfg) (F : Forcing) (st0 : NPZBState) (j i : ℕ)
    (hring : onRing c j i)
    (hN : slotsConstAbove st0.N c.min_N j i) (hP : slotsConstAbove st0.P c.min_P j i)
    (hZ : slotsConstAbove st0.Z c.min_Z j i) (hB : slotsConstAbove st0.B c.min_B j i) :
    ∀ n st, npzRun c F st0 n = some st →
      (∀ s, st.N j i s = st0.N j i s) ∧ (∀ s, st.P j i s = st0.P j i s) ∧
      (∀ s, st.Z j i s = st0.Z j i s) ∧ (∀ s, st.B j i s = st0.B j i s) := by
  have hni : ¬ interior (npzParams c) j i := onRing_not_interior c j i hring
  intro n
  induction n with
  | zero =>
    intro st hst
    simp only [npzRun, runModel, Option.some.injEq] at hst
    subst hst
    exact ⟨fun s => rfl, fun s => rfl, fun s => rfl, fun s => rfl⟩
  | succ k ih =>
    intro st hst
    simp only [npzRun, runModel] at hst
    obtain ⟨st', hst', hstep⟩ := Option.bind_eq_some.mp hst
    have ihh := ih st' hst'
    simp only [runStepAt, Option.bind_eq_some, Option.pure_def, Option.some.injEq]
      at hstep
    obtain ⟨u, hu, v, hv, hsteq⟩ := hstep
    have hN' : slotsConstAbove st'.N c.min_N j i :=
      ⟨fun s t => by rw [ihh.1 s, ihh.1 t]; exact hN.1 s t,
       fun s x hx => hN.2 s x (by rw [← ihh.1 s]; exact hx)⟩
    have hP' : slotsConstAbove st'.P c.min_P j i :=
      ⟨fun s t => by rw [ihh.2.1 s, ihh.2.1 t]; exact hP.1 s t,
       fun s x hx => hP.2 s x (by rw [← ihh.2.1 s]; exact hx)⟩
    have hZ' : slotsConstAbove st'.Z c.min_Z j i :=
      ⟨fun s t => by rw [ihh.2.2.1 s, ihh.2.2.1 t]; exact hZ.1 s t,
       fun s x hx => hZ.2 s x (by rw [← ihh.2.2.1 s]; exact hx)⟩
    have hB' : slotsConstAbove st'.B c.min_B j i :=
      ⟨fun s t => by rw [ihh.2.2.2 s, ihh.2.2.2 t]; exact hB.1 s t,
       fun s x hx => hB.2 s x (by rw [← ihh.2.2.2 s]; exact hx)⟩
    have hfix := step_ring_fixed (npzParams c) u v (filterApplied k)
      (k % 3) ((k + 1) % 3) ((k + 2) % 3) st' j i hni hN' hP' hZ' hB'
    rw [← hsteq]
    exact ⟨fun s => by rw [hfix.1 s, ihh.1 s],
      fun s => by rw [hfix.2.1 s, ihh.2.1 s],
      fun s => by rw [hfix.2.2.1 s, ihh.2.2.1 s],
      fun s => by rw [hfix.2.2.2 s, ihh.2.2.2 s]⟩

/-- C7, witness: after one step of the zero-forcing run, the ring cells
(0,0) and (2,2) hold their initial values. -/
theorem C7_ring_preserved_witness :
    npzRun c8 F8 stU 1 = some (stateAfter c8 F8 stU 1) ∧
    (stateAfter c8 F8 stU 1).N 0 0 2 = stU.N 0 0 2 ∧
    (stateAfter c8 F8 stU 1).B 2 2 0 = stU.B 2 2 0 := by
  have hrun : npzRun c8 F8 stU 1 = some (stateAfter c8 F8 stU 1) := rfl
  have hcN : slotsConstAbove stU.N c8.min_N 0 0 :=
    ⟨fun _ _ => rfl, fun s x hx => by
      have h1 : (some (1 : ℚ)) = some x := hx
      injection h1 with h2
      rw [← h2]; decide⟩
  have hcP : slotsConstAbove stU.P c8.min_P 0 0 :=
    ⟨fun _ _ => rfl, fun s x hx => by
      have h1 : (some (1 : ℚ)) = some x := hx
      injection h1 with h2
      rw [← h2]; decide⟩
  have hcZ : slotsConstAbove stU.Z c8.min_Z 0 0 :=
    ⟨fun _ _ => rfl, fun s x hx => by
      have h1 : (some (1 : ℚ)) = some x := hx
      injection h1 with h2
      rw [← h2]; decide⟩
  have hcB : slotsConstAbove stU.B c8.min_B 0 0 :=
    ⟨fun _ _ => rfl, fun s x hx => by
      have h1 : (some (1 : ℚ)) = some x := hx
      injection h1 with h2
      rw [← h2]; decide⟩
  have hcN2 : slotsConstAbove stU.N c8.min_N 2 2 :=
    ⟨fun _ _ => rfl, fun s x hx => by
      have h1 : (some (1 : ℚ)) = some x := hx
      injection h1 with h2
      rw [← h2]; decide⟩
  have hcP2 : slotsConstAbove stU.P c8.min_P 2 2 :=
    ⟨fun _ _ => rfl, fun s x hx => by
      have h1 : (some (1 : ℚ)) = some x := hx
      injection h1 with h2
      rw [← h2]; decide⟩
  have hcZ2 : slotsConstAbove stU.Z c8.min_Z 2 2 :=
    ⟨fun _ _ => rfl, fun s x hx => by
      have h1 : (some (1 : ℚ)) = some x := hx
      injection h1 with h2
      rw [← h2]; decide⟩
  have hcB2 : slotsConstAbove stU.B c8.min_B 2 2 :=
    ⟨fun _ _ => rfl, fun s x hx => by
      have h1 : (some (1 : ℚ)) = some x := hx
      injection h1 with h2
      rw [← h2]; decide⟩
  have h1 := C7_ring_preserved c8 F8 stU 0 0 ⟨by decide, by decide, Or.inl rfl⟩
    hcN hcP hcZ hcB 1 _ hrun
  have h2 := C7_ring_preserved c8 F8 stU 2 2 ⟨by decide, by decide,
    Or.inr (Or.inl (by decide))⟩ hcN2 hcP2 hcZ2 hcB2 1 _ hrun
  exact ⟨hrun, h1.1 2, h2.2.2.2 0⟩

/-- Helper: the masked-array mean of a plane that holds `w` on every valid
cell (and is masked elsewhere) is `w`, provided some in-grid cell is
valid. -/
theorem omean_uniform (c : Cfg) (f : OField) (w : ℚ)
    (hval : ∀ j i, f j i = some w ∨ f j i = none)
    (j0 i0 : ℕ) (hj : j0 < c.Ny) (hi : i0 < c.Nx) (hf : f j0 i0 = some w) :
    omean c f = w := by
  have hmem : ∀ x ∈ validVals c f, x = w := by
    intro x hx
    unfold validVals at hx
    rw [List.mem_flatMap] at hx
    obtain ⟨j, hjm, hx⟩ := hx
    rw [List.mem_filterMap] at hx
    obtain ⟨i, him, hfx⟩ := hx
    rcases hval j i with h | h
    · rw [h] at hfx
      exact (Option.some_inj.mp hfx).symm
    · rw [h] at hfx
      cases hfx
  have hv : w ∈ validVals c f := by
    unfold validVals
    rw [List.mem_flatMap]
    exact ⟨j0, List.mem_range.mpr hj, List.mem_filterMap.mpr
      ⟨i0, List.mem_range.mpr hi, hf⟩⟩
  have hne : ((validVals c f).length : ℚ) ≠ 0 := by
    rw [Nat.cast_ne_zero]
    intro h0
    rw [List.length_eq_zero] at h0
    rw [h0] at hv
    cases hv
  unfold omean
  rw [List.sum_eq_card_nsmul _ w hmem, nsmul_eq_mul]
  exact mul_div_cancel_left₀ w hne

/-- Helper: interpolating an all-zero forcing series yields the zero
plane. -/
theorem interpAt_zero (F : Forcing) (samples : ℕ → OField)
    (hz : ∀ k j i, samples k j i = some 0) (t : ℚ) (uf : OField)
    (huf : interpAt F samples t = some uf) : ∀ j i, uf j i = some 0 := by
  intro j i
  rw [interpAt] at huf
  split at huf
  · injection huf with h2
    rw [← h2]
    simp [hz]
  · cases huf

/-- Helper: with all biological rates zero and zero velocity planes, one
full step fixes a spatially uniform sea state whose levels are at or above
the floors. -/
theorem step_uniform_fixed (c : Cfg) (u v : OField) (doAvg : Bool) (np nc nn : ℕ)
    (nv pv zv bv : ℚ)
    (hVm : c.Vm = 0) (hm : c.m = 0) (hRm : c.Rm = 0) (hg : c.g = 0) (hal : c.alpha = 0)
    (hu : ∀ j i, u j i = some 0) (hv : ∀ j i, v j i = some 0)
    (hn : c.min_N ≤ nv) (hp : c.min_P ≤ pv) (hz : c.min_Z ≤ zv) (hb : c.min_B ≤ bv) :
    step c u v doAvg np nc nn (uniformState c.mask nv pv zv bv)
      = uniformState c.mask nv pv zv bv := by
  have hw : ∀ j i, wAt c u v j i = 0 := by
    intro j i
    unfold wAt
    split
    · rw [hu j i, hu j (i - 1), hv j i, hv (j - 1) i]
      show (c.idx * ((0 : ℚ) - 0) + c.idy * ((0 : ℚ) - 0)) / 10 = 0
      ring
    · rfl
  have hfldN : ∀ a b t, filled ((uniformState c.mask nv pv zv bv).N a b t) nv = nv :=
    fun a b t => by by_cases h : c.mask a b <;> simp [filled, uniformState, h]
  have hfldP : ∀ a b t, filled ((uniformState c.mask nv pv zv bv).P a b t) pv = pv :=
    fun a b t => by by_cases h : c.mask a b <;> simp [filled, uniformState, h]
  have hfldZ : ∀ a b t, filled ((uniformState c.mask nv pv zv bv).Z a b t) zv = zv :=
    fun a b t => by by_cases h : c.mask a b <;> simp [filled, uniformState, h]
  have hupd : updateFields c u v np nc nn (uniformState c.mask nv pv zv bv)
      = uniformState c.mask nv pv zv bv := by
    refine NPZBState.ext ?_ ?_ ?_ ?_ <;> funext j i s
    · show writeInterior c (uniformState c.mask nv pv zv bv).N nn
        (nNext c u v (omean c (slot (uniformState c.mask nv pv zv bv).N nc)) np nc
          (uniformState c.mask nv pv zv bv)) j i s
        = (uniformState c.mask nv pv zv bv).N j i s
      unfold writeInterior
      split
      case isFalse => rfl
      case isTrue h =>
        obtain ⟨hs, hint⟩ := h
        by_cases hmk : c.mask j i
        · obtain ⟨h1, h2, h3, h4⟩ := hint
          have hnf : omean c (slot (uniformState c.mask nv pv zv bv).N nc) = nv :=
            omean_uniform c _ nv
              (fun a b => by by_cases hab : c.mask a b <;> simp [slot, uniformState, hab])
              j i (by omega) (by omega) (by simp [slot, uniformState, hmk])
          rw [hnf]
          have hrhs : (uniformState c.mask nv pv zv bv).N j i s = some nv := by
            simp [uniformState, hmk]
          rw [hrhs]
          have hdx : diffX c (uniformState c.mask nv pv zv bv).N nv np j i = 0 := by
            rw [diffX, hfldN, hfldN, hfldN]; ring
          have hdy : diffYsym c (uniformState c.mask nv pv zv bv).N nv np j i = 0 := by
            rw [diffYsym, hfldN, hfldN, hfldN]; ring
          have hrdN : ∀ t, (uniformState c.mask nv pv zv bv).N j i t = some nv :=
            fun t => by simp [uniformState, hmk]
          have hrdP : ∀ t, (uniformState c.mask nv pv zv bv).P j i t = some pv :=
            fun t => by simp [uniformState, hmk]
          have hrdZ : ∀ t, (uniformState c.mask nv pv zv bv).Z j i t = some zv :=
            fun t => by simp [uniformState, hmk]
          have hrdB : ∀ t, (uniformState c.mask nv pv zv bv).B j i t = some bv :=
            fun t => by simp [uniformState, hmk]
          simp [nNext, zonalAdv, meridAdv, upwellAt, uptakeAt, pmortAt, zmortAt,
            grazeAt, hdx, hdy, hu, hv, hw, hrdN, hrdP, hrdZ, hrdB,
            hVm, hm, hRm, hg]
        · simp [nNext, uniformState, hmk]
    · show writeInterior c (uniformState c.mask nv pv zv bv).P nn
        (pNext c u v (omean c (slot (uniformState c.mask nv pv zv bv).P nc)) np nc
          (uniformState c.mask nv pv zv bv)) j i s
        = (uniformState c.mask nv pv zv bv).P j i s
      unfold writeInterior
      split
      case isFalse => rfl
      case isTrue h =>
        obtain ⟨hs, hint⟩ := h
        by_cases hmk : c.mask j i
        · obtain ⟨h1, h2, h3, h4⟩ := hint
          have hpf : omean c (slot (uniformState c.mask nv pv zv bv).P nc) = pv :=
            omean_uniform c _ pv
              (fun a b => by by_cases hab : c.mask a b <;> simp [slot, uniformState, hab])
              j i (by omega) (by omega) (by simp [slot, uniformState, hmk])
          rw [hpf]
          have hrhs : (uniformState c.mask nv pv zv bv).P j i s = some pv := by
            simp [uniformState, hmk]
          rw [hrhs]
          have hdx : diffX c (uniformState c.mask nv pv zv bv).P pv np j i = 0 := by
            rw [diffX, hfldP, hfldP, hfldP]; ring
          have hdy : diffYsw c (uniformState c.mask nv pv zv bv).P pv np j i = 0 := by
            rw [diffYsw, hfldP, hfldP, hfldP]; ring
          have hrdN : ∀ t, (uniformState c.mask nv pv zv bv).N j i t = some nv :=
            fun t => by simp [uniformState, hmk]
          have hrdP : ∀ t, (uniformState c.mask nv pv zv bv).P j i t = some pv :=
            fun t => by simp [uniformState, hmk]
          have hrdZ : ∀ t, (uniformState c.mask nv pv zv bv).Z j i t = some zv :=
            fun t => by simp [uniformState, hmk]
          simp [pNext, zonalAdv, meridAdv, uptakeAt, pmortAt, grazeAt, binputAt,
            hdx, hdy, hu, hv, hrdN, hrdP, hrdZ,
            hVm, hm, hRm, hal]
        · simp [pNext, uniformState, hmk]
    · show writeInterior c (uniformState c.mask nv pv zv bv).Z nn
        (zNext c u v (omean c (slot (uniformState c.mask nv pv zv bv).Z nc)) np nc
          (uniformState c.mask nv pv zv bv)) j i s
        = (uniformState c.mask nv pv zv bv).Z j i s
      unfold writeInterior
      split
      case isFalse => rfl
      case isTrue h =>
        obtain ⟨hs, hint⟩ := h
        by_cases hmk : c.mask j i
        · obtain ⟨h1, h2, h3, h4⟩ := hint
          have hzf : omean c (slot (uniformState c.mask nv pv zv bv).Z nc) = zv :=
            omean_uniform c _ zv
              (fun a b => by by_cases hab : c.mask a b <;> simp [slot, uniformState, hab])
              j i (by omega) (by omega) (by simp [slot, uniformState, hmk])
          rw [hzf]
          have hrhs : (uniformState c.mask nv pv zv bv).Z j i s = some zv := by
            simp [uniformState, hmk]
          rw [hrhs]
          have hdx : diffX c (uniformState c.mask nv pv zv bv).Z zv np j i = 0 := by
            rw [diffX, hfldZ, hfldZ, hfldZ]; ring
          have hdy : diffYsw c (uniformState c.mask nv pv zv bv).Z zv np j i = 0 := by
            rw [diffYsw, hfldZ, hfldZ, hfldZ]; ring
          have hrdP : ∀ t, (uniformState c.mask nv pv zv bv).P j i t = some pv :=
            fun t => by simp [uniformState, hmk]
          have hrdZ : ∀ t, (uniformState c.mask nv pv zv bv).Z j i t = some zv :=
            fun t => by simp [uniformState, hmk]
          simp [zNext, zonalAdv, meridAdv, grazeAt, zmortAt,
            hdx, hdy, hu, hv, hrdP, hrdZ,
            hRm, hg]
        · simp [zNext, uniformState, hmk]
    · show writeInterior c (uniformState c.mask nv pv zv bv).B nn
        (bNext c u v np nc (uniformState c.mask nv pv zv bv)) j i s
        = (uniformState c.mask nv pv zv bv).B j i s
      unfold writeInterior
      split
      case isFalse => rfl
      case isTrue h =>
        obtain ⟨hs, hint⟩ := h
        by_cases hmk : c.mask j i
        · have hrhs : (uniformState c.mask nv pv zv bv).B j i s = some bv := by
            simp [uniformState, hmk]
          rw [hrhs]
          have hrdN : ∀ t, (uniformState c.mask nv pv zv bv).N j i t = some nv :=
            fun t => by simp [uniformState, hmk]
          have hrdP : ∀ t, (uniformState c.mask nv pv zv bv).P j i t = some pv :=
            fun t => by simp [uniformState, hmk]
          have hrdB : ∀ t, (uniformState c.mask nv pv zv bv).B j i t = some bv :=
            fun t => by simp [uniformState, hmk]
          simp [bNext, upwellAt, binputAt, hw, hrdN, hrdP, hrdB, hal]
        · simp [bNext, uniformState, hmk]
  have hcl : clampFields c (uniformState c.mask nv pv zv bv)
      = uniformState c.mask nv pv zv bv := by
    refine NPZBState.ext ?_ ?_ ?_ ?_
    · funext j i s
      by_cases h : c.mask j i <;> simp [clampFields, clampSlotted, uniformState, h]
      exact hn
    · funext j i s
      by_cases h : c.mask j i <;> simp [clampFields, clampSlotted, uniformState, h]
      exact hp
    · funext j i s
      by_cases h : c.mask j i <;> simp [clampFields, clampSlotted, uniformState, h]
      exact hz
    · funext j i s
      by_cases h : c.mask j i <;> simp [clampFields, clampSlotted, uniformState, h]
      exact hb
  have hfl : filterFields np nc nn (uniformState c.mask nv pv zv bv)
      = uniformState c.mask nv pv zv bv := by
    refine NPZBState.ext ?_ ?_ ?_ ?_
    · funext j i s
      refine filterSlotted_const np nc nn _ j i (fun _ _ => ?_) s
      rfl
    · funext j i s
      refine filterSlotted_const np nc nn _ j i (fun _ _ => ?_) s
      rfl
    · funext j i s
      refine filterSlotted_const np nc nn _ j i (fun _ _ => ?_) s
      rfl
    · rfl
  cases doAvg with
  | false =>
    show clampFields c (updateFields c u v np nc nn (uniformState c.mask nv pv zv bv))
      = uniformState c.mask nv pv zv bv
    rw [hupd, hcl]
  | true =>
    show filterFields np nc nn (clampFields c
      (updateFields c u v np nc nn (uniformState c.mask nv pv zv bv)))
      = uniformState c.mask nv pv zv bv
    rw [hupd, hcl, hfl]

/-- C8, amended: with `Vm = m = Rm = g = alpha = 0`, zero forcing velocity
everywhere, and a spatially uniform initial state (all three slots equal,
levels at or above the floors), every field remains exactly at its initial
value at every grid cell for every step of the run. The extra uniformity
hypothesis is forced by the counterexample: the claim as stated fails
because diffusion (`At ≠ 0`) acts on the run's gradient initial state. -/
theorem C8_zero_dynamics (c : Cfg) (F : Forcing) (nv pv zv bv : ℚ)
    (hVm : c.Vm = 0) (hm : c.m = 0) (hRm : c.Rm = 0) (hg : c.g = 0)
    (hal : c.alpha = 0)
    (hfu : ∀ k j i, F.u k j i = some 0) (hfv : ∀ k j i, F.v k j i = some 0)
    (hn : c.min_N ≤ nv) (hp : c.min_P ≤ pv) (hz : c.min_Z ≤ zv) (hb : c.min_B ≤ bv) :
    ∀ n st, npzRun c F (uniformState c.mask nv pv zv bv) n = some st →
      st = uniformState c.mask nv pv zv bv := by
  have hVm' : (npzParams c).Vm = 0 := by show c.Vm / 86400 = 0; rw [hVm]; norm_num
  have hm' : (npzParams c).m = 0 := by show c.m / 86400 = 0; rw [hm]; norm_num
  have hRm' : (npzParams c).Rm = 0 := by show c.Rm / 86400 = 0; rw [hRm]; norm_num
  have hg' : (npzParams c).g = 0 := by show c.g / 86400 = 0; rw [hg]; norm_num
  have hal' : (npzParams c).alpha = 0 := by
    show c.alpha / 86400 = 0; rw [hal]; norm_num
  intro n
  induction n with
  | zero =>
    intro st hst
    simp only [npzRun, runModel, Option.some.injEq] at hst
    exact hst.symm
  | succ k ih =>
    intro st hst
    simp only [npzRun, runModel] at hst
    obtain ⟨st', hst', hstep⟩ := Option.bind_eq_some.mp hst
    have hst'eq := ih st' hst'
    subst hst'eq
    simp only [runStepAt, Option.bind_eq_some, Option.some.injEq] at hstep
    obtain ⟨u, hu, v, hv, hsteq⟩ := hstep
    rw [← hsteq]
    exact step_uniform_fixed (npzParams c) u v (filterApplied k)
      (k % 3) ((k + 1) % 3) ((k + 2) % 3) nv pv zv bv hVm' hm' hRm' hg' hal'
      (interpAt_zero F F.u hfu _ u hu) (interpAt_zero F F.v hfv _ v hv) hn hp hz hb

/-- C8, counterexample: with the claimed parameters
`Vm = m = Rm = g = alpha = 0` and zero forcing velocity but the run's
nonuniform initial N (2 at one neighbor cell, 1 elsewhere), after the first
of the run's two steps the center next-slot value of N is 12001, not its
initial 1: diffusion with the default `At = 20` and `dt = 600` moves mass,
and the step-0 filter halves the result. -/
theorem C8_cx :
    c8.Vm = 0 ∧ c8.m = 0 ∧ c8.Rm = 0 ∧ c8.g = 0 ∧ c8.alpha = 0 ∧
    (npzRun c8 F8 st8 1).bind (fun st => st.N 1 1 2) = some 12001 ∧
    st8.N 1 1 2 = some 1 ∧ (1 : ℕ) < numSteps F8 ∧
    ((12001 : ℚ) ≠ 1) := by decide

/-- C8, witness: the all-ones uniform state is exactly preserved by one
step of the zero-forcing, zero-biology run. -/
theorem C8_zero_dynamics_witness :
    npzRun c8 F8 stU 1 = some (stateAfter c8 F8 stU 1) ∧
    stateAfter c8 F8 stU 1 = stU := by
  have hrun : npzRun c8 F8 stU 1 = some (stateAfter c8 F8 stU 1) := rfl
  exact ⟨hrun, C8_zero_dynamics c8 F8 1 1 1 1 rfl rfl rfl rfl rfl
    (fun _ _ _ => rfl) (fun _ _ _ => rfl)
    (by decide) (by decide) (by decide) (by decide) 1 _ hrun⟩

end Fjordeco
